import Mathlib

/-!
Verification of the peer-identity and wire-protocol core of the
`heyrovsky/disturb` repository.  Byte sequences are modelled as `List Nat`
(each element a byte value), Go's fixed-size arrays as lists built by
copying into a zero-initialised buffer, and fallible Go functions as
`Except`-valued Lean functions.
-/

deriving instance DecidableEq for Except

/-- Big-endian bytes of a 64-bit value, as written by
`binary.BigEndian.PutUint64` (the value is a Go `uint64`). -/
def beBytes8 (v : Nat) : List Nat :=
  [v / 2 ^ 56 % 256, v / 2 ^ 48 % 256, v / 2 ^ 40 % 256, v / 2 ^ 32 % 256,
   v / 2 ^ 24 % 256, v / 2 ^ 16 % 256, v / 2 ^ 8 % 256, v % 256]

/-- `binary.BigEndian.Uint64`: reads the first 8 bytes as a big-endian value. -/
def beUint64 (bs : List Nat) : Nat :=
  (bs.take 8).foldl (fun a b => a * 256 + b) 0

/-- Big-endian bytes of a 16-bit value, as written by
`binary.BigEndian.PutUint16` (the value is a Go `uint16`). -/
def beBytes2 (v : Nat) : List Nat :=
  [v / 256 % 256, v % 256]

/-- `binary.BigEndian.Uint16`: reads the first 2 bytes as a big-endian value. -/
def beUint16 (bs : List Nat) : Nat :=
  (bs.take 2).foldl (fun a b => a * 256 + b) 0

/-- Go's `copy` of a slice into a zero-initialised fixed array of size `n`:
the first `min n bs.length` bytes come from `bs`, the rest stay zero. -/
def fixArr (n : Nat) (bs : List Nat) : List Nat :=
  bs.take n ++ List.replicate (n - bs.length) 0

/-! ### Wire message framing (package `message`) -/

/-- `message.Message`: `{ Nonce uint64; Data []byte }`. -/
structure Message where
  Nonce : Nat
  Data : List Nat
deriving DecidableEq, Repr

/-- The error returned on a short buffer (`io.ErrUnexpectedEOF`). -/
inductive DecodeErr where
  | unexpectedEOF
deriving DecidableEq, Repr

/-- `Message.Marshal(dst)`: appends 8 zero bytes to `dst`, then executes
`binary.BigEndian.PutUint64(dst[:8], m.Nonce)` — which writes the nonce into
the FIRST 8 bytes of the whole buffer — and finally appends `m.Data`. -/
def Message.Marshal (m : Message) (dst : List Nat) : List Nat :=
  let dst1 := dst ++ List.replicate 8 0
  let dst2 := beBytes8 m.Nonce ++ dst1.drop 8
  dst2 ++ m.Data

/-- `message.Unmarshal(data)`: errors on fewer than 8 bytes; otherwise reads
the nonce from `data[:8]` and then sets `data = data[:8]` (the first 8 bytes)
as the payload. -/
def Message.Unmarshal (data : List Nat) : Except DecodeErr Message :=
  if data.length < 8 then
    Except.error DecodeErr.unexpectedEOF
  else
    Except.ok { Nonce := beUint64 (data.take 8), Data := data.take 8 }

/-! ### Key loading from hex (package `keys`) -/

/-- `encoding/hex.fromHexChar`: the value of one hex digit, accepting
`0-9`, `a-f` and `A-F`. -/
def fromHexChar (c : Char) : Option Nat :=
  if '0' ≤ c ∧ c ≤ '9' then some (c.toNat - '0'.toNat)
  else if 'a' ≤ c ∧ c ≤ 'f' then some (c.toNat - 'a'.toNat + 10)
  else if 'A' ≤ c ∧ c ≤ 'F' then some (c.toNat - 'A'.toNat + 10)
  else none

/-- Errors of `encoding/hex.Decode`: an invalid digit, or an odd-length
input (`hex.ErrLength`). -/
inductive HexErr where
  | invalidByte (c : Char)
  | oddLength
deriving DecidableEq, Repr

/-- `encoding/hex.DecodeString`: decodes digit pairs; a trailing lone digit
yields `ErrLength` when valid and `InvalidByteError` when itself invalid. -/
def hexDecode : List Char → Except HexErr (List Nat)
  | [] => Except.ok []
  | [c] =>
    match fromHexChar c with
    | none => Except.error (HexErr.invalidByte c)
    | some _ => Except.error HexErr.oddLength
  | c1 :: c2 :: rest =>
    match fromHexChar c1 with
    | none => Except.error (HexErr.invalidByte c1)
    | some a =>
      match fromHexChar c2 with
      | none => Except.error (HexErr.invalidByte c2)
      | some b =>
        match hexDecode rest with
        | Except.error e => Except.error e
        | Except.ok bs => Except.ok ((a * 16 + b) :: bs)

/-- Errors of `keys.LoadKeysFromHex`. -/
inductive KeyLoadErr where
  | decodeErr (e : HexErr)
  | invalidKeySize (got : Nat)
deriving DecidableEq, Repr

/-- `ed25519.PrivateKeySize`. -/
def ed25519PrivateKeySize : Nat := 64

/-- `ed25519.PublicKeySize`. -/
def ed25519PublicKeySize : Nat := 32

/-- `ed25519.SignatureSize`. -/
def ed25519SignatureSize : Nat := 64

/-- `keys.LoadKeysFromHex`: hex-decodes the string, rejects a decoded length
other than `ed25519.PrivateKeySize`, and otherwise copies the bytes into an
`Ed25519PrivateKey` fixed array. -/
def LoadKeysFromHex (secretHex : String) : Except KeyLoadErr (List Nat) :=
  match hexDecode secretHex.data with
  | Except.error e => Except.error (KeyLoadErr.decodeErr e)
  | Except.ok secret =>
    if secret.length ≠ ed25519PrivateKeySize then
      Except.error (KeyLoadErr.invalidKeySize secret.length)
    else
      Except.ok (fixArr ed25519PrivateKeySize secret)

/-! ### IP addresses (Go `net` package, as used by `utils` and `id`) -/

/-- `net.IPv4len`. -/
def IPv4len : Nat := 4

/-- `net.IPv6len`. -/
def IPv6len : Nat := 16

/-- The 12-byte `::ffff:` embedding used by `net.IPv4` and `To4`/`To16`. -/
def v4InV6Pref : List Nat := [0, 0, 0, 0, 0, 0, 0, 0, 0, 0, 255, 255]

/-- `net.IP.To16`: a 4-byte address becomes its IPv4-in-IPv6 form, a
16-byte address is returned as-is, anything else is nil (empty). -/
def ipTo16 (ip : List Nat) : List Nat :=
  if ip.length = 4 then v4InV6Pref ++ ip
  else if ip.length = 16 then ip
  else []

/-- `net.IP.To4`: a 4-byte address as-is; a 16-byte IPv4-mapped address
yields its last 4 bytes; anything else is nil (empty). -/
def ipTo4 (ip : List Nat) : List Nat :=
  if ip.length = 4 then ip
  else if ip.length = 16 ∧ ip.take 12 = v4InV6Pref then ip.drop 12
  else []

/-- `net.IP.Equal`: byte equality up to the IPv4-in-IPv6 embedding. -/
def ipEq (a b : List Nat) : Bool :=
  if a.length = b.length then a == b
  else if a.length = 4 ∧ b.length = 16 then (b.take 12 == v4InV6Pref) && (a == b.drop 12)
  else if a.length = 16 ∧ b.length = 4 then (a.take 12 == v4InV6Pref) && (b == a.drop 12)
  else false

/-- `net.IP.IsLoopback`: an IPv4 address in `127.0.0.0/8`, or `::1`. -/
def ipIsLoopback (ip : List Nat) : Bool :=
  let p4 := ipTo4 ip
  if p4.length = 4 then p4.headD 0 == 127
  else ipEq ip (List.replicate 15 0 ++ [1])

/-- `net.IP.IsUnspecified`: equal to `0.0.0.0` or to `::`. -/
def ipIsUnspecified (ip : List Nat) : Bool :=
  ipEq ip (v4InV6Pref ++ [0, 0, 0, 0]) || ipEq ip (List.replicate 16 0)

/-- One hex group (two bytes) per element of a 16-byte address. -/
def hextets : List Nat → List Nat
  | a :: b :: rest => (a * 256 + b) :: hextets rest
  | _ => []

/-- Lowercase hex digits of one group, no leading zeros (`appendHex`). -/
def hexGroup (h : Nat) : String := String.mk (Nat.toDigits 16 h)

/-- Two lowercase hex digits per byte (`net`'s `hexString`). -/
def ipHexString (ip : List Nat) : String :=
  String.mk (ip.foldr (fun b acc => (Nat.digitChar (b / 16)) :: (Nat.digitChar (b % 16)) :: acc) [])

/-- The scan of `net.IP.String` for the longest (leftmost) run of zero
groups: from index `i`, a run of `j - i` zero groups either strictly beats
the best run found so far or the scan moves on by one. -/
def zeroRunAux (hs : List Nat) (i : Nat) (best : Nat × Nat) : Nat × Nat :=
  if i < hs.length then
    let j := i + ((hs.drop i).takeWhile (fun x => x == 0)).length
    if i < j ∧ best.2 - best.1 < j - i then
      zeroRunAux hs j (i, j)
    else
      zeroRunAux hs (i + 1) best
  else best
termination_by hs.length - i
decreasing_by
  · omega
  · omega

/-- The zero run elided as `::`, when at least two groups long. -/
def zeroRun (hs : List Nat) : Option (Nat × Nat) :=
  let best := zeroRunAux hs 0 (0, 0)
  if best.2 - best.1 ≤ 1 then none else some best

/-- The IPv6 rendering loop of `net.IP.String`: groups joined by `:`,
with the chosen zero run collapsed to `::`. -/
def ipv6String (hs : List Nat) : String :=
  match zeroRun hs with
  | none => String.intercalate ":" (hs.map hexGroup)
  | some (e0, e1) =>
    String.intercalate ":" ((hs.take e0).map hexGroup) ++ "::" ++
      String.intercalate ":" ((hs.drop e1).map hexGroup)

/-- `net.IP.String`: dotted quad for (possibly IPv4-mapped) IPv4 addresses,
compressed lowercase hex groups for IPv6, `"?" ++ hex` for other lengths,
`"<nil>"` for the nil address. -/
def ipString (ip : List Nat) : String :=
  if ip.length = 0 then "<nil>"
  else if (ipTo4 ip).length = 4 then
    String.intercalate "." ((ipTo4 ip).map (fun b => toString b))
  else if ip.length ≠ 16 then "?" ++ ipHexString ip
  else ipv6String (hextets ip)

/-- `utils.ResolveIP`: nil for a nil, loopback or unspecified address,
otherwise the address itself. -/
def ResolveIP (ip : List Nat) : Option (List Nat) :=
  if ip.isEmpty || ipIsLoopback ip || ipIsUnspecified ip then none else some ip

/-- `utils.NormalizeIP`: empty string when `ResolveIP` yields nil,
otherwise the address rendered by `net.IP.String`. -/
def NormalizeIP (ip : List Nat) : String :=
  match ResolveIP ip with
  | none => ""
  | some r => ipString r

/-- `net.JoinHostPort`: brackets the host when it contains a colon. -/
def joinHostPort (host port : String) : String :=
  if host.contains ':' then "[" ++ host ++ "]:" ++ port
  else host ++ ":" ++ port

/-! ### Peer identity (package `id`) -/

/-- `id.ID`: public key bytes, host IP, and port of a peer.  The Go field
holding the public key is itself named `ID`; Lean cannot reuse the
structure's own name for a field, so it is called `PubKey` here. -/
structure ID where
  PubKey : List Nat
  Host : List Nat
  Port : Nat
deriving DecidableEq, Repr

/-- Modelled from the spec: `keys.PublicKey.Size()` (used by `id.Marshal`
and `id.UnmarshalID`) is not among the sources; per the spec the scheme has
"32-byte keys", so the Ed25519 public-key size is 32 bytes. -/
def pubkeySize : Nat := ed25519PublicKeySize

/-- Modelled from the spec: `keys.PublicKey.Bytes()` is not among the
sources; it emits the raw public-key bytes (the `publicKeyBytes` field of
the peer-address record). -/
def pubkeyBytes (k : List Nat) : List Nat := k

/-- Modelled from the spec: `UnmarshalPublicKeyFromByte` is not among the
sources; it parses a public key from exactly `Size()` raw bytes, copying
them into the fixed-size key value. -/
def UnmarshalPublicKeyFromByte (buf : List Nat) : Option (List Nat) :=
  if buf.length = pubkeySize then some (fixArr pubkeySize buf) else none

/-- `id.ID.Marshal`: `publicKeyBytes || host.To16() || bigEndianUint16 port`. -/
def ID.Marshal (e : ID) : List Nat :=
  pubkeyBytes e.PubKey ++ ipTo16 e.Host ++ beBytes2 e.Port

/-- `id.ID.Size`: `i.ID.Size() + net.IPv4len + 2` — note the code adds
`IPv4len` (4), not the 16 bytes that `Marshal` actually emits for the host. -/
def ID.Size (_i : ID) : Nat :=
  pubkeySize + IPv4len + 2

/-- `id.ID.Address`: `net.JoinHostPort(utils.NormalizeIP(host), port)`. -/
def ID.Address (i : ID) : String :=
  joinHostPort (NormalizeIP i.Host) (toString i.Port)

/-- Errors of `id.UnmarshalID`: `io.ErrUnexpectedEOF` on a short buffer, or
a public-key parse failure. -/
inductive IDDecodeErr where
  | unexpectedEOF
  | invalidPublicKey
deriving DecidableEq, Repr

/-- `id.UnmarshalID` (specialised to the Ed25519 key shape): rejects a
buffer shorter than `Size() + IPv6len + 2`, then splits it positionally
into public key, 16 host bytes, and big-endian port. -/
def UnmarshalID (buf : List Nat) : Except IDDecodeErr ID :=
  if buf.length < pubkeySize + IPv6len + 2 then
    Except.error IDDecodeErr.unexpectedEOF
  else
    match UnmarshalPublicKeyFromByte (buf.take pubkeySize) with
    | none => Except.error IDDecodeErr.invalidPublicKey
    | some pubKey =>
      Except.ok
        { PubKey := pubKey,
          Host := (buf.drop pubkeySize).take IPv6len,
          Port := beUint16 (buf.drop (pubkeySize + IPv6len)) }

/-- Equality of identities, with hosts compared by `net.IP.Equal`. -/
def idEq (x y : ID) : Bool :=
  x.PubKey == y.PubKey && ipEq x.Host y.Host && x.Port == y.Port

/-! ### Signing and verification (package `keys`)

The `crypto/ed25519` standard-library functions are external to the
repository; they enter the embedding as an abstract primitive carrying the
byte-length guarantees their documentation states.  The repository's
wrappers (`Sign`, `Verify`, `Public`) are translated over that primitive. -/

/-- The abstract `crypto/ed25519` primitive: `Sign`, `Verify` and private-key
`Public`, over raw byte strings, with the fixed output lengths the standard
library documents (64-byte signatures, 32-byte public keys). -/
structure Ed25519Prim where
  sign : List Nat → List Nat → List Nat
  verify : List Nat → List Nat → List Nat → Bool
  public : List Nat → List Nat
  sign_len : ∀ sk d, (sign sk d).length = ed25519SignatureSize
  public_len : ∀ sk, (public sk).length = ed25519PublicKeySize

/-- The `keys.Signature` interface value: either an `Ed25519Signature`
(64 raw bytes) or a signature of some other, incompatible implementation. -/
inductive Signature where
  | ed25519Sig (bytes : List Nat)
  | otherSig (tag : String)
deriving DecidableEq, Repr

/-- `keys.ed25519UnmarshalSignature`: reinterprets the first
`SignatureSize` bytes of the buffer as the fixed-size signature value. -/
def ed25519UnmarshalSignature (data : List Nat) : List Nat :=
  data.take ed25519SignatureSize

/-- `Ed25519PublicKey.Verify`: errors with `invalid signature type` unless
the signature value is an `Ed25519Signature`, then returns the verdict of
`ed25519.Verify` with no error. -/
def Ed25519PublicKey.Verify (prim : Ed25519Prim) (e data : List Nat)
    (signature : Signature) : Except String Bool :=
  match signature with
  | Signature.ed25519Sig s => Except.ok (prim.verify e data s)
  | Signature.otherSig _ => Except.error "invalid signature type"

/-- `Ed25519PrivateKey.Public`: derives the public key via
`ed25519.PrivateKey.Public` and copies it into the fixed-size key. -/
def Ed25519PrivateKey.Public (prim : Ed25519Prim) (e : List Nat) : List Nat :=
  fixArr ed25519PublicKeySize (prim.public e)

/-- `Ed25519PrivateKey.Sign`: signs with `ed25519.Sign` and converts the
resulting bytes through `ed25519UnmarshalSignature`. -/
def Ed25519PrivateKey.Sign (prim : Ed25519Prim) (e data : List Nat) : Signature :=
  Signature.ed25519Sig (ed25519UnmarshalSignature (prim.sign e data))

/-! ### Connection registry (package `client`)

The sources show the `ClientMap` structure (capacity, recency list,
entry map) and its constructor, but not the method bodies. -/

/-- `client.ClientMap`, with the doubly-linked recency `order` list and the
`entries` map collapsed into one association list ordered most-recently-used
first.  The `Nat` in each entry is a ghost last-touch timestamp (drawn from
`clock`) used to state recency; it mirrors the entry's position in the
recency list and carries no operational role. -/
structure ClientMap (α : Type) where
  cap : Nat
  entries : List (String × α × Nat)
  clock : Nat
deriving Repr

/-- `client.newClientMap`: an empty registry of the given capacity. -/
def newClientMap (α : Type) (cap : Nat) : ClientMap α :=
  ⟨cap, [], 0⟩

/-- Modelled from the spec: the registry `get` method is not among the
sources.  Per §4.3, on a hit the entry moves to the most-recently-used end
and its handle is returned; on a miss nothing changes. -/
def ClientMap.get {α : Type} (s : ClientMap α) (k : String) :
    ClientMap α × Option α :=
  match s.entries.find? (fun e => e.1 == k) with
  | none => (s, none)
  | some (_, v, _) =>
    (⟨s.cap, (k, v, s.clock) :: s.entries.filter (fun e => !(e.1 == k)),
      s.clock + 1⟩, some v)

/-- Modelled from the spec: the registry `put` method is not among the
sources.  Per §4.3, an existing address is replaced and promoted; a new
address inserted at full capacity first evicts the least-recently-used
entry (the tail of the recency list).  The evicted entry, if any, is also
returned so eviction can be observed. -/
def ClientMap.put {α : Type} (s : ClientMap α) (k : String) (v : α) :
    ClientMap α × Option (String × α × Nat) :=
  if s.entries.any (fun e => e.1 == k) then
    (⟨s.cap, (k, v, s.clock) :: s.entries.filter (fun e => !(e.1 == k)),
      s.clock + 1⟩, none)
  else if s.cap ≤ s.entries.length then
    (⟨s.cap, (k, v, s.clock) :: s.entries.dropLast, s.clock + 1⟩,
      s.entries.getLast?)
  else
    (⟨s.cap, (k, v, s.clock) :: s.entries, s.clock + 1⟩, none)

/-- Modelled from the spec: the registry `len` method is not among the
sources; it reports the current occupancy. -/
def ClientMap.len {α : Type} (s : ClientMap α) : Nat :=
  s.entries.length

/-- One registry operation: a `put` or a `get`. -/
inductive RegOp (α : Type) where
  | put (k : String) (v : α)
  | get (k : String)

/-- The state reached after one registry operation. -/
def applyOp {α : Type} (s : ClientMap α) : RegOp α → ClientMap α
  | RegOp.put k v => (s.put k v).1
  | RegOp.get k => (s.get k).1

/-- The registry state after a sequence of operations on a fresh registry. -/
def runOps (α : Type) (cap : Nat) (ops : List (RegOp α)) : ClientMap α :=
  ops.foldl applyOp (newClientMap α cap)

/-- A primitive for witnesses whose verification always succeeds. -/
def truePrim : Ed25519Prim where
  sign := fun _ _ => List.replicate 64 0
  verify := fun _ _ _ => true
  public := fun _ => List.replicate 32 0
  sign_len := fun _ _ => by simp [ed25519SignatureSize]
  public_len := fun _ => by simp [ed25519PublicKeySize]

/-- A primitive for witnesses whose verification always fails. -/
def falsePrim : Ed25519Prim where
  sign := fun _ _ => List.replicate 64 0
  verify := fun _ _ _ => false
  public := fun _ => List.replicate 32 0
  sign_len := fun _ _ => by simp [ed25519SignatureSize]
  public_len := fun _ => by simp [ed25519PublicKeySize]

/-!  ## Claims -/

/-- C1: the claim says `message.Unmarshal` on a buffer of length ≥ 8 returns
the bytes after the first 8 as the payload.  The code instead returns the
first 8 bytes: on the 9-byte buffer below the payload should be `[171]`, but
`Unmarshal` yields the 8 nonce bytes. -/
theorem c1_message_unmarshal_payload_bug :
    Message.Unmarshal [0, 0, 0, 0, 0, 0, 0, 1, 171] =
      Except.ok { Nonce := 1, Data := [0, 0, 0, 0, 0, 0, 0, 1] } ∧
    ([0, 0, 0, 0, 0, 0, 0, 1] : List Nat) ≠
      List.drop 8 [0, 0, 0, 0, 0, 0, 0, 1, 171] := by
  decide

/-- C2: the claim says `Message.Marshal` appends the 8 nonce bytes after the
existing contents of `dst`.  The code writes the nonce into the first 8 bytes
of the whole buffer: with `dst = [170]` and nonce 1 it returns
`[0,0,0,0,0,0,0,1,0]`, clobbering the prefix, instead of the claimed
`[170] ++ beBytes8 1`. -/
theorem c2_message_marshal_overwrite_bug :
    Message.Marshal { Nonce := 1, Data := [] } [170] =
      [0, 0, 0, 0, 0, 0, 0, 1, 0] ∧
    ([0, 0, 0, 0, 0, 0, 0, 1, 0] : List Nat) ≠ [170] ++ beBytes8 1 ++ [] := by
  decide

/-- C4: the claim says `ID.Size()` is the public-key size plus 16 plus 2.
The code adds `net.IPv4len` (4) instead of 16, returning 38, although its
own `Marshal` emits 50 bytes. -/
theorem c4_id_size_bug :
    ID.Size ⟨List.replicate 32 0, List.replicate 16 0, 0⟩ = 38 ∧
    (ID.Marshal ⟨List.replicate 32 0, List.replicate 16 0, 0⟩).length = 50 ∧
    pubkeySize + 16 + 2 = 50 ∧ (38 : Nat) ≠ 50 := by
  decide

/-- C9: `LoadKeysFromHex` propagates a hex-decoding failure as a decode
error, rejects a decoded length other than the Ed25519 private-key size
with an invalid-key-size error, and otherwise returns exactly the decoded
bytes as the key. -/
theorem c9_load_keys_from_hex (s : String) :
    (∀ e, hexDecode s.data = Except.error e →
        LoadKeysFromHex s = Except.error (KeyLoadErr.decodeErr e)) ∧
    (∀ bs, hexDecode s.data = Except.ok bs →
      (bs.length ≠ ed25519PrivateKeySize →
          LoadKeysFromHex s = Except.error (KeyLoadErr.invalidKeySize bs.length)) ∧
      (bs.length = ed25519PrivateKeySize → LoadKeysFromHex s = Except.ok bs)) := by
  refine ⟨fun e he => ?_, fun bs hbs => ⟨fun hne => ?_, fun heq => ?_⟩⟩
  · simp [LoadKeysFromHex, he]
  · simp [LoadKeysFromHex, hbs, hne]
  · unfold LoadKeysFromHex
    rw [hbs]
    simp [heq, fixArr, List.take_of_length_le (le_of_eq heq)]

/-- Witness for C9 at the concrete inputs `"0"` (odd-length hex) and a
128-character zero string (a well-formed 64-byte key). -/
theorem c9_load_keys_from_hex_witness :
    LoadKeysFromHex "0" = Except.error (KeyLoadErr.decodeErr HexErr.oddLength) ∧
    LoadKeysFromHex "00" = Except.error (KeyLoadErr.invalidKeySize 1) :=
  ⟨(c9_load_keys_from_hex "0").1 HexErr.oddLength (by decide),
   ((c9_load_keys_from_hex "00").2 [0] (by decide)).1 (by decide)⟩

/-- C10: `ID.Address` is `JoinHostPort` of the normalized host and the
decimal port, and the normalized host is the empty string whenever the host
IP is nil, loopback, or unspecified. -/
theorem c10_address_normalization (i : ID) :
    i.Address = joinHostPort (NormalizeIP i.Host) (toString i.Port) ∧
    ((i.Host = [] ∨ ipIsLoopback i.Host = true ∨ ipIsUnspecified i.Host = true) →
      NormalizeIP i.Host = "") := by
  constructor
  · rfl
  · intro h
    unfold NormalizeIP ResolveIP
    rcases h with h | h | h
    · simp [h]
    · simp [h]
    · simp [h]

/-- Witness for C10 at a loopback host. -/
theorem c10_address_normalization_witness :
    ID.Address ⟨List.replicate 32 0, [127, 0, 0, 1], 443⟩ =
      joinHostPort (NormalizeIP [127, 0, 0, 1]) (toString 443) ∧
    NormalizeIP [127, 0, 0, 1] = "" :=
  ⟨(c10_address_normalization ⟨List.replicate 32 0, [127, 0, 0, 1], 443⟩).1,
   (c10_address_normalization ⟨List.replicate 32 0, [127, 0, 0, 1], 443⟩).2
     (Or.inr (Or.inl (by decide)))⟩

/-- C6: for any ed25519 primitive satisfying its documented sign/verify
round-trip, the repository's `Sign`, `Public`, and `Verify` wrappers
preserve it: verifying a just-signed payload yields `true` with no error. -/
theorem c6_sign_verify_roundtrip (prim : Ed25519Prim) (priv data : List Nat)
    (hround : ∀ sk d, prim.verify (prim.public sk) d (prim.sign sk d) = true) :
    Ed25519PublicKey.Verify prim (Ed25519PrivateKey.Public prim priv) data
      (Ed25519PrivateKey.Sign prim priv data) = Except.ok true := by
  have hs : ed25519UnmarshalSignature (prim.sign priv data) = prim.sign priv data := by
    unfold ed25519UnmarshalSignature
    exact List.take_of_length_le (le_of_eq (prim.sign_len priv data))
  have hp : Ed25519PrivateKey.Public prim priv = prim.public priv := by
    unfold Ed25519PrivateKey.Public fixArr
    rw [List.take_of_length_le (le_of_eq (prim.public_len priv)),
      prim.public_len priv]
    simp
  simp only [Ed25519PrivateKey.Sign, Ed25519PublicKey.Verify, hs, hp]
  rw [hround]

/-- Witness for C6 with a concrete primitive and empty key and payload. -/
theorem c6_sign_verify_roundtrip_witness :
    Ed25519PublicKey.Verify truePrim (Ed25519PrivateKey.Public truePrim []) []
      (Ed25519PrivateKey.Sign truePrim [] []) = Except.ok true :=
  c6_sign_verify_roundtrip truePrim [] [] (fun _ _ => rfl)

/-- C7: on an Ed25519-typed signature that does not verify, `Verify` returns
`false` with no error; `Verify` returns an error exactly on signature values
of a structurally incompatible type. -/
theorem c7_verify_error_handling (prim : Ed25519Prim) (pub data s : List Nat)
    (hnomatch : prim.verify pub data s = false) :
    Ed25519PublicKey.Verify prim pub data (Signature.ed25519Sig s) =
      Except.ok false ∧
    (∀ sig : Signature,
      (∃ err, Ed25519PublicKey.Verify prim pub data sig = Except.error err) ↔
      ∃ tag, sig = Signature.otherSig tag) := by
  constructor
  · simp [Ed25519PublicKey.Verify, hnomatch]
  · intro sig
    cases sig with
    | ed25519Sig b => simp [Ed25519PublicKey.Verify]
    | otherSig t => simp [Ed25519PublicKey.Verify]

/-- C8: `UnmarshalID` reports a truncated input exactly on buffers shorter
than `pubkeySize + 18` and succeeds on all longer ones; `message.Unmarshal`
reports a truncated input exactly on buffers shorter than 8 bytes and
succeeds on all longer ones. -/
theorem c8_truncation_errors (buf wbuf : List Nat) :
    (UnmarshalID buf = Except.error IDDecodeErr.unexpectedEOF ↔
        buf.length < pubkeySize + 18) ∧
    (pubkeySize + 18 ≤ buf.length → ∃ i, UnmarshalID buf = Except.ok i) ∧
    (Message.Unmarshal wbuf = Except.error DecodeErr.unexpectedEOF ↔
        wbuf.length < 8) ∧
    (8 ≤ wbuf.length → ∃ m, Message.Unmarshal wbuf = Except.ok m) := by
  have hp32 : pubkeySize = 32 := rfl
  have h16 : IPv6len = 16 := rfl
  have hok : 32 ≤ buf.length →
      UnmarshalPublicKeyFromByte (buf.take 32) =
        some (fixArr 32 (buf.take 32)) := by
    intro hge
    have hl : (buf.take 32).length = 32 := by
      rw [List.length_take]
      omega
    simp [UnmarshalPublicKeyFromByte, hp32, hl]
  refine ⟨?_, ?_, ?_, ?_⟩
  · unfold UnmarshalID
    simp only [hp32, h16]
    by_cases h : buf.length < 32 + 16 + 2
    · simp [h]
    · rw [hok (by omega)]
      simp [h]
  · intro hge
    rw [hp32] at hge
    unfold UnmarshalID
    simp only [hp32, h16]
    rw [hok (by omega)]
    have h : ¬ buf.length < 32 + 16 + 2 := by omega
    simp [h]
  · unfold Message.Unmarshal
    by_cases h : wbuf.length < 8
    · simp [h]
    · simp [h]
  · intro hge
    unfold Message.Unmarshal
    have h : ¬ wbuf.length < 8 := by omega
    simp [h]

/-- Witness for C8 at a 49-byte (short) identity buffer and an 8-byte
wire buffer. -/
theorem c8_truncation_errors_witness :
    (UnmarshalID (List.replicate 49 0) = Except.error IDDecodeErr.unexpectedEOF ↔
        (List.replicate 49 (0 : Nat)).length < pubkeySize + 18) ∧
    (pubkeySize + 18 ≤ (List.replicate 49 (0 : Nat)).length →
        ∃ i, UnmarshalID (List.replicate 49 0) = Except.ok i) ∧
    (Message.Unmarshal (List.replicate 8 0) = Except.error DecodeErr.unexpectedEOF ↔
        (List.replicate 8 (0 : Nat)).length < 8) ∧
    (8 ≤ (List.replicate 8 (0 : Nat)).length →
        ∃ m, Message.Unmarshal (List.replicate 8 0) = Except.ok m) :=
  c8_truncation_errors (List.replicate 49 0) (List.replicate 8 0)

/-- `binary.BigEndian.Uint16` inverts `PutUint16` on 16-bit values. -/
theorem beUint16_beBytes2 (p : Nat) (h : p < 65536) :
    beUint16 (beBytes2 p) = p := by
  unfold beUint16 beBytes2
  simp [List.foldl]
  omega

/-- `ipTo16` of a valid (4- or 16-byte) address is 16 bytes long. -/
theorem ipTo16_length {ip : List Nat} (h : ip.length = 4 ∨ ip.length = 16) :
    (ipTo16 ip).length = 16 := by
  rcases h with h | h <;> simp [ipTo16, v4InV6Pref, h]

/-- `net.IP.Equal` identifies an address with its `To16` form. -/
theorem ipEq_ipTo16 {ip : List Nat} (h : ip.length = 4 ∨ ip.length = 16) :
    ipEq (ipTo16 ip) ip = true := by
  rcases h with h | h
  · have h16 : ipTo16 ip = v4InV6Pref ++ ip := by simp [ipTo16, h]
    have hlen : (v4InV6Pref ++ ip).length = 16 := by simp [v4InV6Pref, h]
    have ht : (v4InV6Pref ++ ip).take 12 = v4InV6Pref := List.take_left' rfl
    have hd : (v4InV6Pref ++ ip).drop 12 = ip := List.drop_left' rfl
    simp [ipEq, h16, hlen, h, ht, hd]
  · simp [ipEq, ipTo16, h]

/-- C3: marshalling a valid identity (well-sized key, valid 4- or 16-byte
host IP, 16-bit port) and unmarshalling the result yields an identity equal
to the original (hosts compared by `net.IP.Equal`, which identifies an IPv4
address with its IPv4-in-IPv6 form). -/
theorem c3_id_marshal_roundtrip (i : ID)
    (hkey : i.PubKey.length = pubkeySize)
    (hhost : i.Host.length = 4 ∨ i.Host.length = 16)
    (hport : i.Port < 65536) :
    ∃ j, UnmarshalID i.Marshal = Except.ok j ∧ idEq j i = true := by
  have hhl : (ipTo16 i.Host).length = 16 := ipTo16_length hhost
  have hm : i.Marshal = i.PubKey ++ (ipTo16 i.Host ++ beBytes2 i.Port) := by
    simp [ID.Marshal, pubkeyBytes]
  have hmlen : i.Marshal.length = 50 := by
    rw [hm]
    simp [hkey, hhl, beBytes2, pubkeySize, ed25519PublicKeySize]
  have htake : i.Marshal.take pubkeySize = i.PubKey := by
    rw [hm]
    exact List.take_left' hkey
  have hdrop : i.Marshal.drop pubkeySize = ipTo16 i.Host ++ beBytes2 i.Port := by
    rw [hm]
    exact List.drop_left' hkey
  have hhost16 : (i.Marshal.drop pubkeySize).take IPv6len = ipTo16 i.Host := by
    rw [hdrop]
    exact List.take_left' (hhl.trans rfl)
  have hportbytes : i.Marshal.drop (pubkeySize + IPv6len) = beBytes2 i.Port := by
    have hlen2 : (i.PubKey ++ ipTo16 i.Host).length = pubkeySize + IPv6len := by
      simp [hkey, hhl, IPv6len]
    rw [hm, ← List.append_assoc]
    exact List.drop_left' hlen2
  have hpk : UnmarshalPublicKeyFromByte (i.Marshal.take pubkeySize) =
      some i.PubKey := by
    rw [htake]
    simp [UnmarshalPublicKeyFromByte, hkey, fixArr,
      List.take_of_length_le (le_of_eq hkey)]
  refine ⟨⟨i.PubKey, ipTo16 i.Host, i.Port⟩, ?_, ?_⟩
  · unfold UnmarshalID
    rw [hpk]
    have hnlt : ¬ i.Marshal.length < pubkeySize + IPv6len + 2 := by
      rw [hmlen]
      decide
    simp [hnlt, hhost16, hportbytes, beUint16_beBytes2 i.Port hport]
  · simp [idEq, ipEq_ipTo16 hhost]

/-- Witness for C3 at a concrete identity with an IPv4 host. -/
theorem c3_id_marshal_roundtrip_witness :
    ∃ j, UnmarshalID (ID.Marshal ⟨List.replicate 32 5, [1, 2, 3, 4], 4660⟩) =
        Except.ok j ∧ idEq j ⟨List.replicate 32 5, [1, 2, 3, 4], 4660⟩ = true :=
  c3_id_marshal_roundtrip ⟨List.replicate 32 5, [1, 2, 3, 4], 4660⟩
    (by decide) (by decide) (by decide)

/-- The registry invariant: occupancy within capacity, ghost timestamps
strictly decreasing along the recency list, and all below the clock. -/
def RegInv {α : Type} (s : ClientMap α) : Prop :=
  s.entries.length ≤ s.cap ∧
  s.entries.Pairwise (fun a b => b.2.2 < a.2.2) ∧
  ∀ e ∈ s.entries, e.2.2 < s.clock

/-- In a list with strictly decreasing timestamps, the last entry's
timestamp is minimal. -/
theorem getLast?_time_min {α : Type} {l : List (String × α × Nat)}
    (hp : l.Pairwise (fun a b => b.2.2 < a.2.2)) {x : String × α × Nat}
    (hx : l.getLast? = some x) : ∀ e ∈ l, x.2.2 ≤ e.2.2 := by
  induction l with
  | nil => simp at hx
  | cons a t ih =>
    cases t with
    | nil =>
      intro e he
      simp only [List.getLast?_singleton, Option.some.injEq] at hx
      simp only [List.mem_singleton] at he
      rw [he, ← hx]
    | cons b t2 =>
      rw [List.getLast?_cons_cons] at hx
      intro e he
      rcases List.mem_cons.mp he with rfl | he'
      · have hxmem : x ∈ b :: t2 := List.mem_of_getLast?_eq_some hx
        exact Nat.le_of_lt ((List.pairwise_cons.mp hp).1 x hxmem)
      · exact ih (List.pairwise_cons.mp hp).2 hx e he'

/-- Promoting an already-present key (the shared shape of a `get` hit and a
`put` on an existing address) preserves the registry invariant. -/
theorem RegInv_promote {α : Type} {s : ClientMap α} (hinv : RegInv s)
    (k : String) (v : α) (a : String × α × Nat) (ha : a ∈ s.entries)
    (hak : (a.1 == k) = true) :
    RegInv ⟨s.cap, (k, v, s.clock) :: s.entries.filter (fun e => !(e.1 == k)),
      s.clock + 1⟩ := by
  obtain ⟨hlen, hpw, hclock⟩ := hinv
  have hflt : (s.entries.filter (fun e => !(e.1 == k))).length < s.entries.length :=
    List.length_filter_lt_length_iff_exists.mpr ⟨a, ha, by simp [hak]⟩
  refine ⟨?_, ?_, ?_⟩
  · simp only [List.length_cons]
    omega
  · refine List.pairwise_cons.mpr ⟨?_, hpw.sublist (List.filter_sublist _)⟩
    intro b hb
    exact hclock b (List.mem_of_mem_filter hb)
  · intro e he
    rcases List.mem_cons.mp he with rfl | he'
    · exact Nat.lt_succ_self _
    · exact Nat.lt_succ_of_lt (hclock e (List.mem_of_mem_filter he'))

/-- Registry operations do not change the capacity. -/
theorem applyOp_cap {α : Type} (s : ClientMap α) (op : RegOp α) :
    (applyOp s op).cap = s.cap := by
  cases op with
  | put k v =>
    show (s.put k v).1.cap = s.cap
    unfold ClientMap.put
    split
    · rfl
    · split <;> rfl
  | get k =>
    show (s.get k).1.cap = s.cap
    unfold ClientMap.get
    split <;> rfl

/-- Every registry operation preserves the invariant, given a positive
capacity. -/
theorem RegInv_applyOp {α : Type} {s : ClientMap α} (hcap : 1 ≤ s.cap)
    (hinv : RegInv s) (op : RegOp α) : RegInv (applyOp s op) := by
  obtain ⟨hlen, hpw, hclock⟩ := hinv
  cases op with
  | get k =>
    show RegInv (s.get k).1
    unfold ClientMap.get
    cases hfind : s.entries.find? (fun e => e.1 == k) with
    | none => exact ⟨hlen, hpw, hclock⟩
    | some a =>
      obtain ⟨k0, v0, t0⟩ := a
      have hak := @List.find?_some _ (fun e => e.1 == k) (k0, v0, t0) s.entries hfind
      exact RegInv_promote ⟨hlen, hpw, hclock⟩ k v0 (k0, v0, t0)
        (List.mem_of_find?_eq_some hfind) hak
  | put k v =>
    show RegInv (s.put k v).1
    unfold ClientMap.put
    by_cases hany : s.entries.any (fun e => e.1 == k)
    · rw [if_pos hany]
      obtain ⟨a, ha, hak⟩ := List.any_eq_true.mp hany
      exact RegInv_promote ⟨hlen, hpw, hclock⟩ k v a ha hak
    · rw [if_neg hany]
      by_cases hfull : s.cap ≤ s.entries.length
      · rw [if_pos hfull]
        refine ⟨?_, ?_, ?_⟩
        · simp only [List.length_cons, List.length_dropLast]
          omega
        · refine List.pairwise_cons.mpr ⟨?_, hpw.sublist (List.dropLast_sublist _)⟩
          intro b hb
          exact hclock b ((List.dropLast_sublist _).subset hb)
        · intro e he
          rcases List.mem_cons.mp he with rfl | he'
          · exact Nat.lt_succ_self _
          · exact Nat.lt_succ_of_lt (hclock e ((List.dropLast_sublist _).subset he'))
      · rw [if_neg hfull]
        refine ⟨?_, ?_, ?_⟩
        · simp only [List.length_cons]
          omega
        · exact List.pairwise_cons.mpr ⟨fun b hb => hclock b hb, hpw⟩
        · intro e he
          rcases List.mem_cons.mp he with rfl | he'
          · exact Nat.lt_succ_self _
          · exact Nat.lt_succ_of_lt (hclock e he')

/-- The invariant holds along any operation sequence, and the capacity is
that of the starting registry. -/
theorem RegInv_foldl {α : Type} (ops : List (RegOp α)) (s : ClientMap α)
    (hcap : 1 ≤ s.cap) (hinv : RegInv s) :
    RegInv (ops.foldl applyOp s) ∧ (ops.foldl applyOp s).cap = s.cap := by
  induction ops generalizing s with
  | nil => exact ⟨hinv, rfl⟩
  | cons op rest ih =>
    have hc := applyOp_cap s op
    have hrec := ih (applyOp s op) (hc ▸ hcap) (RegInv_applyOp hcap hinv op)
    exact ⟨hrec.1, hrec.2.trans hc⟩

/-- A fresh registry satisfies the invariant. -/
theorem RegInv_new (α : Type) (cap : Nat) : RegInv (newClientMap α cap) := by
  refine ⟨?_, ?_, ?_⟩ <;> simp [newClientMap]

/-- C5: after any sequence of puts and gets on a registry of positive
capacity `cap`, the occupancy is at most `cap`; and if a further `put`
evicts an entry, the evicted entry is in the pre-state and its last-touch
timestamp is minimal — it is the least recently touched entry. -/
theorem c5_registry_capacity_lru (α : Type) (cap : Nat) (hcap : 1 ≤ cap)
    (ops : List (RegOp α)) (k : String) (v : α) :
    (runOps α cap ops).len ≤ cap ∧
    ∀ ev, ((runOps α cap ops).put k v).2 = some ev →
      ev ∈ (runOps α cap ops).entries ∧
      ∀ e ∈ (runOps α cap ops).entries, ev.2.2 ≤ e.2.2 := by
  have hstart : 1 ≤ (newClientMap α cap).cap := hcap
  obtain ⟨⟨hlen, hpw, hclock⟩, hcapeq⟩ :=
    RegInv_foldl ops (newClientMap α cap) hstart (RegInv_new α cap)
  have hcc : (runOps α cap ops).cap = cap := hcapeq
  constructor
  · exact le_trans hlen (le_of_eq hcc)
  · intro ev hev
    have hlast : (runOps α cap ops).entries.getLast? = some ev := by
      unfold ClientMap.put at hev
      split at hev
      · simp at hev
      · split at hev
        · exact hev
        · simp at hev
    exact ⟨List.mem_of_getLast?_eq_some hlast, getLast?_time_min hpw hlast⟩

/-- Witness for C5: capacity 2, `put a`, `put b`, `get a`, then `put c`
(which evicts `b`, the least recently touched). -/
theorem c5_registry_capacity_lru_witness :
    (runOps Nat 2 [RegOp.put "a" 0, RegOp.put "b" 1, RegOp.get "a"]).len ≤ 2 ∧
    ∀ ev, ((runOps Nat 2 [RegOp.put "a" 0, RegOp.put "b" 1,
        RegOp.get "a"]).put "c" 2).2 = some ev →
      ev ∈ (runOps Nat 2 [RegOp.put "a" 0, RegOp.put "b" 1, RegOp.get "a"]).entries ∧
      ∀ e ∈ (runOps Nat 2 [RegOp.put "a" 0, RegOp.put "b" 1,
          RegOp.get "a"]).entries, ev.2.2 ≤ e.2.2 :=
  c5_registry_capacity_lru Nat 2 (by decide)
    [RegOp.put "a" 0, RegOp.put "b" 1, RegOp.get "a"] "c" 2

/-- Witness for C7 with a concrete always-false primitive. -/
theorem c7_verify_error_handling_witness :
    Ed25519PublicKey.Verify falsePrim [] [] (Signature.ed25519Sig []) =
      Except.ok false ∧
    (∀ sig : Signature,
      (∃ err, Ed25519PublicKey.Verify falsePrim [] [] sig = Except.error err) ↔
      ∃ tag, sig = Signature.otherSig tag) :=
  c7_verify_error_handling falsePrim [] [] [] rfl
